import Mathlib

/-!
Verification of the runir handle / interning / chain-linking core.

The definitions below are a shallow embedding of the Rust sources:

* `InternHandle`, `InternHandle.register`, `InternHandle.levelFlagsBits`,
  `InternHandle.dataFn`, `InternHandle.node` embed `src/interner.rs`
  (struct `InternHandle` and its methods; machine integers become `Nat`
  with explicit `% 2^w` where the Rust code wraps or casts).
* `lookupTbl` / `assign_intern` embed the sequential semantics of
  `InternTable::assign_intern` / `InternTable::get` (`src/interner.rs`).
* `tagLink` embeds `Tag::<InternHandle, Arc<InternHandle>>::link`
  (`src/tag.rs`), including the registration of the composite handle in
  the global `HANDLES` table keyed by the unlinked `to` handle.
* `Linker` / `pushLevel` embed `Linker::push_level` (`src/linker.rs`).
* `crc24Byte` / `crc24Update` / `hasherFinish` / `CrcState` / `pushTag` /
  `setLevelFlags` / `setData` / `mkHandle` / `interner` / `runTags` embed
  `CrcInterner` (`src/crc.rs`, CRC-24/OPENPGP digest, `Hasher::finish`,
  `InternerFactory` impl).
* `entityStep` / `entityRun` / `entityFn` embed `EntityInterner`
  (`src/entity.rs`) and `InternHandle::entity` (`src/interner.rs`).
* `downgrade` / `getLevelsFuel` embed `Repr::downgrade` and
  `Repr::get_levels` (`src/repr/mod.rs`); the unbounded Rust `loop` is
  modelled with explicit fuel, so divergence is `= none` for every fuel.
-/

namespace Runir

/-- `2^16`, the modulus of a Rust `u16`. -/
def U16 : Nat := 2 ^ 16

/-- `2^32`, the modulus of a Rust `u32`. -/
def U32 : Nat := 2 ^ 32

/-- `2^64`, the modulus of a Rust `u64`. -/
def U64 : Nat := 2 ^ 64

/-- The packed identity value (`struct InternHandle` in `src/interner.rs`):
a `u32` link, two `u16` registers and a `u64` data payload, modelled as
`Nat` fields (bounds are carried as hypotheses where they matter). -/
structure InternHandle where
  link : Nat
  register_hi : Nat
  register_lo : Nat
  data : Nat
deriving DecidableEq

/-- Field bounds of a well-formed handle (`u32`/`u16`/`u16`/`u64`). -/
def InternHandle.Wf (h : InternHandle) : Prop :=
  h.link < U32 ∧ h.register_hi < U16 ∧ h.register_lo < U16 ∧ h.data < U64

instance (h : InternHandle) : Decidable h.Wf := by
  unfold InternHandle.Wf; infer_instance

/-- `InternHandle::register`: `bytemuck::cast::<[u16; 2], u32>([lo, hi])`,
i.e. the little-endian packing `lo + hi * 2^16`. -/
def InternHandle.register (h : InternHandle) : Nat :=
  h.register_lo + h.register_hi * 65536

/-- `InternHandle::level_flags` as raw bits:
`LevelFlags::from_bits_truncate(register_hi)` keeps exactly the defined
flag bits, whose union is the high byte mask `0xFF00`. -/
def InternHandle.levelFlagsBits (h : InternHandle) : Nat :=
  h.register_hi &&& 0xFF00

/-- `LevelFlags::ROOT.bits()`. -/
def ROOT_FLAG : Nat := 0x0100

/-- `InternHandle::data()`: the stored data register un-XORed with the
calling thread's entropy value. -/
def InternHandle.dataFn (h : InternHandle) (entropy : Nat) : Nat :=
  h.data ^^^ entropy

/-- `InternHandle::node` (`src/interner.rs`): XOR the stored link against
the register to recover the previous level's register pair, split it as a
`u32 -> [u16; 2]` cast, and produce the previous handle only when its
(truncated) level flag shifted left by one bit (`u16` shift, so mod
`2^16`) equals the current handle's level flag.  The recovered handle's
data register is the current thread entropy, the current handle is
returned with its link zeroed. -/
def InternHandle.node (h : InternHandle) (entropy : Nat) :
    Option InternHandle × InternHandle :=
  let prev := h.link ^^^ h.register
  let lo := prev % 65536
  let hi := prev / 65536
  let prevLevel := hi &&& 0xFF00
  let prevHandle :=
    if (prevLevel <<< 1) % 65536 = h.levelFlagsBits then
      some { link := 0, register_hi := hi, register_lo := lo, data := entropy }
    else
      none
  (prevHandle, { h with link := 0 })

/-- `impl From<u64> for InternHandle`: split the `u64` through
`Uuid::from_u64_pair(value, 0).as_fields()` into `(link, hi, lo)` and
stamp the current entropy as the data register. -/
def internHandleFromU64 (value entropy : Nat) : InternHandle :=
  { link := (value >>> 32) % U32
    register_hi := (value >>> 16) % U16
    register_lo := value % U16
    data := entropy }

/-- Association-list lookup, the sequential semantics of
`InternTable::get` (`src/interner.rs`): `Some` iff the handle has an
entry. -/
def lookupTbl {T : Type} : List (InternHandle × T) → InternHandle → Option T
  | [], _ => none
  | (k, v) :: rest, h => if k = h then some v else lookupTbl rest h

/-- `InternTable::assign_intern` (`src/interner.rs`), sequential
semantics: if the handle already has an entry the call is a no-op,
otherwise the value is inserted. -/
def assign_intern {T : Type} (tbl : List (InternHandle × T))
    (h : InternHandle) (v : T) : List (InternHandle × T) :=
  if (lookupTbl tbl h).isSome then tbl else (h, v) :: tbl

/-- `Tag::<InternHandle, Arc<InternHandle>>::link` (`src/tag.rs`): fail
when `from`'s level flags are non-empty and `from`'s flags shifted left
one bit (`u16` shift) differ from `to`'s flags; otherwise produce the
composite `to` handle whose link is `from.register() XOR to.register()`
and register it in the `HANDLES` table keyed by the original `to`. -/
def tagLink (tbl : List (InternHandle × InternHandle)) (a b : InternHandle) :
    Except String (InternHandle × List (InternHandle × InternHandle)) :=
  if a.levelFlagsBits ≠ 0 ∧ (a.levelFlagsBits <<< 1) % 65536 ≠ b.levelFlagsBits then
    .error "Trying to link an intern handle out of order"
  else
    let out : InternHandle := { b with link := a.register ^^^ b.register }
    .ok (out, assign_intern tbl b out)

/-- Helper: the low `u16` of a register packing is the low field. -/
theorem register_mod (h : InternHandle) (hlo : h.register_lo < 65536) :
    h.register % 65536 = h.register_lo := by
  unfold InternHandle.register
  omega

/-- Helper: the high `u16` of a register packing is the high field. -/
theorem register_div (h : InternHandle) (hlo : h.register_lo < 65536) :
    h.register / 65536 = h.register_hi := by
  unfold InternHandle.register
  omega

/-- Claim C1: for handles `a`, `b` with `a.link = 0` and `b`'s level flag
equal to `a`'s level flag shifted left by one bit, `Tag::link(a, b)`
succeeds and returns the composite handle whose link is
`a.register() XOR b.register()`; `node()` on that composite recovers a
previous handle whose `register_hi`/`register_lo` equal `a`'s, together
with `b` with its link zeroed; and in general `node()` yields no previous
handle exactly when the recovered register's truncated level flag shifted
left one bit differs from the composite's level flag. -/
theorem c1_link_node_roundtrip (a b : InternHandle) (e : Nat)
    (tbl : List (InternHandle × InternHandle))
    (halo : a.register_lo < 65536) (_hahi : a.register_hi < 65536)
    (_halink : a.link = 0)
    (hflag : b.levelFlagsBits = (a.levelFlagsBits <<< 1) % 65536) :
    tagLink tbl a b =
      .ok ({ b with link := a.register ^^^ b.register },
           assign_intern tbl b { b with link := a.register ^^^ b.register }) ∧
    InternHandle.node { b with link := a.register ^^^ b.register } e =
      (some { link := 0, register_hi := a.register_hi,
              register_lo := a.register_lo, data := e },
       { b with link := 0 }) ∧
    (∀ h : InternHandle,
      (h.node e).1 = none ↔
        ¬ ((((h.link ^^^ h.register) / 65536) &&& 0xFF00) <<< 1) % 65536
            = h.levelFlagsBits) := by
  refine ⟨?_, ?_, ?_⟩
  · unfold tagLink
    rw [if_neg]
    intro hcon
    exact hcon.2 hflag.symm
  · unfold InternHandle.node
    have hreg : ({ b with link := a.register ^^^ b.register } :
        InternHandle).register = b.register := rfl
    simp only [hreg]
    have hx : (a.register ^^^ b.register) ^^^ b.register = a.register := by
      rw [Nat.xor_assoc, Nat.xor_self, Nat.xor_zero]
    simp only [hx]
    rw [register_mod a halo, register_div a halo]
    have hlf : ({ b with link := a.register ^^^ b.register } :
        InternHandle).levelFlagsBits = b.levelFlagsBits := rfl
    rw [hlf, if_pos]
    exact hflag.symm
  · intro h
    unfold InternHandle.node
    dsimp only
    constructor
    · intro hnone hcon
      rw [if_pos hcon] at hnone
      exact Option.noConfusion hnone
    · intro hne
      rw [if_neg hne]

/-- Witness for C1 at concrete handles: a root-flagged `a` and a
level-1-flagged `b`. -/
theorem c1_witness :
    tagLink [] ⟨0, 0x0100, 0x1234, 0⟩ ⟨0, 0x0205, 0x0042, 7⟩ =
      .ok (⟨0x03051276, 0x0205, 0x0042, 7⟩,
           [(⟨0, 0x0205, 0x0042, 7⟩, ⟨0x03051276, 0x0205, 0x0042, 7⟩)]) ∧
    InternHandle.node ⟨0x03051276, 0x0205, 0x0042, 7⟩ 9 =
      (some ⟨0, 0x0100, 0x1234, 9⟩, ⟨0, 0x0205, 0x0042, 7⟩) := by
  have h := c1_link_node_roundtrip ⟨0, 0x0100, 0x1234, 0⟩ ⟨0, 0x0205, 0x0042, 7⟩
    9 [] (by decide) (by decide) (by decide) (by decide)
  exact ⟨h.1, h.2.1⟩

/-- The `Linker`'s observable state for level ordering: the ordered list
of already-configured level handles (`Linker::levels` in
`src/linker.rs`; the interner itself is threaded separately). -/
structure Linker where
  levels : List InternHandle

/-- `Linker::push_level` (`src/linker.rs`) after the level has been
configured to `handle`: if a previous level exists, fail unless its
level flags equal `from_bits_truncate(handle.level_flags().bits() >> 1)`;
with no previous level, fail unless the handle's flags are `ROOT`.  On
failure the level list is left unmodified, on success the handle is
appended. -/
def pushLevel (l : Linker) (handle : InternHandle) : Linker × Option String :=
  match l.levels.getLast? with
  | some last =>
      if last.levelFlagsBits ≠ (handle.levelFlagsBits >>> 1) &&& 0xFF00 then
        (l, some "Expected next level")
      else
        ({ levels := l.levels ++ [handle] }, none)
  | none =>
      if handle.levelFlagsBits ≠ ROOT_FLAG then
        (l, some "Expected root level")
      else
        ({ levels := l.levels ++ [handle] }, none)

/-- A one-hot level flag value (`LevelFlags::ROOT` .. `LevelFlags::LEVEL_7`). -/
def IsLevelFlag (f : Nat) : Prop :=
  f = 0x0100 ∨ f = 0x0200 ∨ f = 0x0400 ∨ f = 0x0800 ∨
  f = 0x1000 ∨ f = 0x2000 ∨ f = 0x4000 ∨ f = 0x8000

instance (f : Nat) : Decidable (IsLevelFlag f) := by
  unfold IsLevelFlag; infer_instance

/-- For one-hot flags the code's check (`prev == truncate(new >> 1)`) is
the spec's check (`prev << 1 == new`, `u16` shift). -/
theorem flag_shift_iff (A B : Nat) (hA : IsLevelFlag A) (hB : IsLevelFlag B) :
    (A = (B >>> 1) &&& 0xFF00) ↔ ((A <<< 1) % 65536 = B) := by
  rcases hA with rfl | rfl | rfl | rfl | rfl | rfl | rfl | rfl <;>
    rcases hB with rfl | rfl | rfl | rfl | rfl | rfl | rfl | rfl <;> decide

/-- A one-hot flag never satisfies the ordering check against itself. -/
theorem flag_ne_self_shift (A : Nat) (hA : IsLevelFlag A) :
    A ≠ (A >>> 1) &&& 0xFF00 := by
  rcases hA with rfl | rfl | rfl | rfl | rfl | rfl | rfl | rfl <;> decide

/-- Claim C2: `push_level` on an empty linker succeeds exactly when the
configured handle's level flag is `ROOT`; with a previous level (one-hot
flags) it succeeds exactly when the previous flag shifted left one bit
equals the new flag — in particular pushing the same flag twice fails —
and on an ordering failure the list of pushed levels is unchanged. -/
theorem c2_push_level_ordering (l : Linker) (h : InternHandle) :
    (l.levels = [] →
      ((pushLevel l h).2 = none ↔ h.levelFlagsBits = ROOT_FLAG)) ∧
    (∀ last, l.levels.getLast? = some last →
      IsLevelFlag last.levelFlagsBits → IsLevelFlag h.levelFlagsBits →
      (((pushLevel l h).2 = none ↔
          (last.levelFlagsBits <<< 1) % 65536 = h.levelFlagsBits) ∧
        (last.levelFlagsBits = h.levelFlagsBits → (pushLevel l h).2.isSome))) ∧
    ((pushLevel l h).2.isSome → (pushLevel l h).1 = l) := by
  refine ⟨?_, ?_, ?_⟩
  · intro hnil
    have hlast : l.levels.getLast? = none := by
      rw [hnil]; rfl
    by_cases hc : h.levelFlagsBits = ROOT_FLAG <;>
      simp [pushLevel, hlast, hc]
  · intro last hlast hA hB
    refine ⟨?_, ?_⟩
    · by_cases hc : last.levelFlagsBits = (h.levelFlagsBits >>> 1) &&& 0xFF00
      · have hiff := (flag_shift_iff _ _ hA hB).mp hc
        simp [pushLevel, hlast, hc]
        rw [← hc]
        exact hiff
      · simp [pushLevel, hlast, hc, (flag_shift_iff _ _ hA hB).not.mp hc]
    · intro heq
      have hc : last.levelFlagsBits ≠ (h.levelFlagsBits >>> 1) &&& 0xFF00 := by
        rw [heq]; exact flag_ne_self_shift _ hB
      simp [pushLevel, hlast, hc]
  · intro hsome
    cases hlast : l.levels.getLast? with
    | some last =>
        by_cases hc : last.levelFlagsBits = (h.levelFlagsBits >>> 1) &&& 0xFF00
        · simp [pushLevel, hlast, hc] at hsome
        · simp [pushLevel, hlast, hc]
    | none =>
        by_cases hc : h.levelFlagsBits = ROOT_FLAG
        · simp [pushLevel, hlast, hc] at hsome
        · simp [pushLevel, hlast, hc]

/-- Witness for C2: pushing a level-1 handle after a root handle
succeeds; pushing a root handle after a root handle fails and leaves the
linker unchanged. -/
theorem c2_witness :
    (pushLevel ⟨[⟨0, 0x0134, 5, 0⟩]⟩ ⟨0, 0x0277, 6, 0⟩).2 = none ∧
    (pushLevel ⟨[⟨0, 0x0134, 5, 0⟩]⟩ ⟨0, 0x0199, 6, 0⟩).2.isSome = true := by
  constructor
  · exact ((c2_push_level_ordering ⟨[⟨0, 0x0134, 5, 0⟩]⟩ ⟨0, 0x0277, 6, 0⟩).2.1
      ⟨0, 0x0134, 5, 0⟩ rfl (by decide) (by decide)).1.mpr (by decide)
  · exact (c2_push_level_ordering ⟨[⟨0, 0x0134, 5, 0⟩]⟩ ⟨0, 0x0199, 6, 0⟩).2.1
      ⟨0, 0x0134, 5, 0⟩ rfl (by decide) (by decide) |>.2 (by decide)

/-- Fixed handle used in concrete counterexamples. -/
def h0 : InternHandle := ⟨0, 0x0100, 0, 0⟩

/-- Counterexample to C3 as stated: assigning a differing value `2` to a
handle already mapped to `1` does **not** overwrite — `assign_intern`
no-ops when the handle already has an entry, so the table still maps the
handle to `1`. -/
theorem c3_counterexample :
    lookupTbl (assign_intern (assign_intern ([] : List (InternHandle × Nat)) h0 1) h0 2) h0
      ≠ some 2 := by
  decide

/-- Claim C3 (amended): assigning `v1` twice leaves the table unchanged
(still mapping `h` to `v1`), and assigning a differing `v2` to the
already-populated `h` is also a no-op — the existing value wins — and in
particular never panics. -/
theorem c3_assign_intern_noop {T : Type} (tbl : List (InternHandle × T))
    (h : InternHandle) (v1 v2 : T) (hfresh : lookupTbl tbl h = none) :
    lookupTbl (assign_intern tbl h v1) h = some v1 ∧
    assign_intern (assign_intern tbl h v1) h v1 = assign_intern tbl h v1 ∧
    assign_intern (assign_intern tbl h v1) h v2 = assign_intern tbl h v1 := by
  have h1 : assign_intern tbl h v1 = (h, v1) :: tbl := by
    unfold assign_intern
    rw [hfresh]
    rfl
  have h2 : lookupTbl (assign_intern tbl h v1) h = some v1 := by
    rw [h1]
    unfold lookupTbl
    rw [if_pos rfl]
  have h3 : ∀ v : T, assign_intern (assign_intern tbl h v1) h v =
      assign_intern tbl h v1 := by
    intro v
    generalize hg : assign_intern tbl h v1 = t1 at h2 ⊢
    unfold assign_intern
    rw [h2]
    rfl
  exact ⟨h2, h3 v1, h3 v2⟩

/-- Witness for C3 (amended) on a concrete empty table. -/
theorem c3_witness :
    lookupTbl (assign_intern ([] : List (InternHandle × Nat)) h0 1) h0 = some 1 ∧
    assign_intern (assign_intern ([] : List (InternHandle × Nat)) h0 1) h0 1 =
      assign_intern ([] : List (InternHandle × Nat)) h0 1 ∧
    assign_intern (assign_intern ([] : List (InternHandle × Nat)) h0 1) h0 2 =
      assign_intern ([] : List (InternHandle × Nat)) h0 1 :=
  c3_assign_intern_noop [] h0 1 2 rfl

/-- A deferred tag callback queued by `push_tag`
(`Fn(InternHandle) -> anyhow::Result<()>` acting on the global tables,
modelled as a state transformer over a table state `σ`). -/
def TagFn (σ : Type) := InternHandle → σ → Except String σ

/-- Generator polynomial of CRC-24/OPENPGP (`crc::CRC_24_OPENPGP`). -/
def crc24Poly : Nat := 0x864CFB

/-- Initial value of CRC-24/OPENPGP. -/
def crc24Init : Nat := 0xB704CE

/-- One MSB-first shift step of the CRC-24 register. -/
def crc24Bit (c : Nat) : Nat :=
  if c &&& 0x800000 ≠ 0 then ((c <<< 1) ^^^ crc24Poly) &&& 0xFFFFFF
  else (c <<< 1) &&& 0xFFFFFF

/-- Feed one byte into the CRC-24 register (MSB-first, no reflection). -/
def crc24Byte (c b : Nat) : Nat :=
  crc24Bit^[8] (c ^^^ ((b % 256) <<< 16))

/-- `Digest::update`: feed a byte sequence into the CRC register. -/
def crc24Update (c : Nat) (bytes : List Nat) : Nat :=
  bytes.foldl crc24Byte c

/-- The CRC-24/OPENPGP checksum of a byte sequence (xorout is zero). -/
def crc24 (bytes : List Nat) : Nat :=
  crc24Update crc24Init bytes

set_option maxRecDepth 10000 in
/-- The model matches the published CRC-24/OPENPGP check value
`0x21CF02` for the ASCII bytes of `123456789`. -/
theorem crc24_check :
    crc24 [0x31, 0x32, 0x33, 0x34, 0x35, 0x36, 0x37, 0x38, 0x39] = 0x21CF02 := by
  decide

/-- The mutable state of `CrcInterner` (`src/crc.rs`): the running CRC
digest, the current level flags and data payload, and the queue of
deferred tag callbacks. -/
structure CrcState (σ : Type) where
  digest : Nat
  flags : Nat
  tags : List (TagFn σ)
  data : Nat

/-- `CrcInterner::new`: fresh digest, `ROOT` flags, empty queue, zero data. -/
def freshState (σ : Type) : CrcState σ :=
  { digest := crc24Init, flags := ROOT_FLAG, tags := [], data := 0 }

/-- `push_tag`: hash the value's byte stream into the running digest and
append the deferred callback to the queue. -/
def pushTag {σ : Type} (s : CrcState σ) (p : List Nat × TagFn σ) : CrcState σ :=
  { s with digest := crc24Update s.digest p.1, tags := s.tags ++ [p.2] }

/-- `set_level_flags`: record the level flags for the next handle. -/
def setLevelFlags {σ : Type} (s : CrcState σ) (f : Nat) : CrcState σ :=
  { s with flags := f }

/-- `set_data`: record the data payload for the next handle. -/
def setData {σ : Type} (s : CrcState σ) (d : Nat) : CrcState σ :=
  { s with data := d }

/-- `Hasher::finish` for `CrcInterner`: finalize the CRC, split it as a
`u32 -> [u16; 2]` cast, rebuild `Uuid::from_fields(0, hi, lo, [0; 8])`
and read back the first `u64` of the pair, which is `hi * 2^16 + lo`. -/
def hasherFinish (digest : Nat) : Nat :=
  let hash := digest
  let lo := hash % 65536
  let hi := (hash / 65536) % 65536
  hi * 65536 + lo

/-- The handle constructed inside `CrcInterner::interner`: run the hash
through `Uuid::from_u64_pair(field_hash, 0).as_fields()`, OR the level
flags into the upper register, and stamp `data = entropy XOR payload`. -/
def mkHandle {σ : Type} (s : CrcState σ) (entropy : Nat) : InternHandle :=
  let key := hasherFinish s.digest
  { link := (key >>> 32) % U32
    register_hi := s.flags ||| ((key >>> 16) % U16)
    register_lo := key % U16
    data := entropy ^^^ s.data }

/-- Invoke the drained tag callbacks in queue order against the finished
handle, stopping at the first error (`for tag in tags { (tag)(handle)? }`).
Returns the table state reached and the first error, if any. -/
def runTags {σ : Type} (h : InternHandle) :
    List (TagFn σ) → σ → σ × Option String
  | [], g => (g, none)
  | t :: rest, g =>
      match t h g with
      | .ok g' => runTags h rest g'
      | .error e => (g, some e)

/-- `CrcInterner::interner`: finalize the hash (which replaces the digest
with a fresh one), build the handle, drain the tag queue and invoke every
callback with the handle, propagating the first failure.  The level
flags and data registers of the interner state are left untouched. -/
def interner {σ : Type} (s : CrcState σ) (entropy : Nat) (g : σ) :
    Except String InternHandle × CrcState σ × σ :=
  let handle := mkHandle s entropy
  let s' : CrcState σ := { s with digest := crc24Init, tags := [] }
  match runTags handle s.tags g with
  | (g', none) => (.ok handle, s', g')
  | (g', some e) => (.error e, s', g')

/-- If a prefix of the queue succeeds, running the whole queue continues
from the state the prefix reached. -/
theorem runTags_append {σ : Type} (h : InternHandle) (ts1 ts2 : List (TagFn σ))
    (g g1 : σ) (h1 : runTags h ts1 g = (g1, none)) :
    runTags h (ts1 ++ ts2) g = runTags h ts2 g1 := by
  induction ts1 generalizing g with
  | nil =>
      unfold runTags at h1
      cases h1
      rfl
  | cons t rest ih =>
      rw [List.cons_append]
      simp only [runTags] at h1 ⊢
      cases ht : t h g with
      | ok g' =>
          simp only [ht] at h1 ⊢
          exact ih g' h1
      | error e =>
          simp only [ht] at h1
          simp at h1

/-- Claim C4: during `interner()`, the queued callbacks run in push order
against the finished handle; if the callbacks before `bad` succeed,
reaching table state `g1`, and `bad` fails with `err`, the whole call
returns that error, the callbacks after `bad` are never invoked (the
result does not depend on them), and the side effects already applied
(`g1`) persist. -/
theorem c4_deferred_tag_failure {σ : Type} (s : CrcState σ) (e : Nat) (g : σ)
    (ts1 : List (TagFn σ)) (bad : TagFn σ) (ts2 : List (TagFn σ))
    (g1 : σ) (err : String)
    (hq : s.tags = ts1 ++ bad :: ts2)
    (h1 : runTags (mkHandle s e) ts1 g = (g1, none))
    (hbad : bad (mkHandle s e) g1 = .error err) :
    interner s e g = (.error err, { s with digest := crc24Init, tags := [] }, g1) := by
  simp only [interner]
  rw [hq, runTags_append (mkHandle s e) ts1 (bad :: ts2) g g1 h1]
  simp only [runTags, hbad]

/-- Witness for C4: one succeeding callback, then a failing one, then a
callback that would change the table again but is never reached. -/
theorem c4_witness :
    interner
      (⟨crc24Init, 0x0100,
        [fun _ g => .ok (g + 1), fun _ _ => .error "boom", fun _ g => .ok (g + 10)],
        0⟩ : CrcState Nat) 0 0 =
      (.error "boom",
       { digest := crc24Init, flags := 0x0100, tags := [], data := 0 }, 1) := by
  exact c4_deferred_tag_failure _ 0 0 [fun _ g => .ok (g + 1)]
    (fun _ _ => .error "boom") [fun _ g => .ok (g + 10)] 1 "boom" rfl rfl rfl

/-- A successful `interner()` call returns exactly the handle built by
`mkHandle` from the pre-call state. -/
theorem interner_ok_handle {σ : Type} (s : CrcState σ) (e : Nat) (g : σ)
    (h : InternHandle) (r : CrcState σ × σ)
    (hok : interner s e g = (.ok h, r)) : h = mkHandle s e := by
  simp only [interner] at hok
  cases hr : runTags (mkHandle s e) s.tags g with
  | mk g' err =>
    cases err with
    | none =>
        rw [hr] at hok
        exact (Except.ok.inj (congrArg Prod.fst hok)).symm
    | some e' =>
        rw [hr] at hok
        exact absurd (congrArg Prod.fst hok) (by simp)

/-- The digest reached by a sequence of `push_tag` calls depends only on
the pushed byte streams, not on the attached callbacks. -/
theorem foldl_pushTag_digest_eq {σ : Type} :
    ∀ (inputs1 inputs2 : List (List Nat × TagFn σ)) (s1 s2 : CrcState σ),
      s1.digest = s2.digest →
      inputs1.map Prod.fst = inputs2.map Prod.fst →
      (inputs1.foldl pushTag s1).digest = (inputs2.foldl pushTag s2).digest := by
  intro inputs1
  induction inputs1 with
  | nil =>
      intro inputs2 s1 s2 hd hm
      cases inputs2 with
      | nil => exact hd
      | cons q rest2 => simp at hm
  | cons p rest ih =>
      intro inputs2 s1 s2 hd hm
      cases inputs2 with
      | nil => simp at hm
      | cons q rest2 =>
          simp only [List.map_cons, List.cons.injEq] at hm
          refine ih rest2 (pushTag s1 p) (pushTag s2 q) ?_ hm.2
          show crc24Update s1.digest p.1 = crc24Update s2.digest q.1
          rw [hd, hm.1]

/-- One full configuration call against a `CrcInterner`: push every
(value bytes, callback) pair, set the level flags, set the payload. -/
def configureRun {σ : Type} (s0 : CrcState σ)
    (inputs : List (List Nat × TagFn σ)) (f d : Nat) : CrcState σ :=
  setData (setLevelFlags (inputs.foldl pushTag s0) f) d

/-- Claim C7: two configuration runs that start from equal digests (e.g.
fresh interners, or interners already reset by a previous `interner()`
call), push identical byte streams in identical order and set the same
level flag produce handles with bit-identical `register_hi` and
`register_lo`, independently of the payload, entropy value, attached
callbacks and table state. -/
theorem c7_determinism {σ : Type} (s01 s02 : CrcState σ)
    (inputs1 inputs2 : List (List Nat × TagFn σ)) (f d1 d2 e1 e2 : Nat)
    (g1 g2 : σ) (h1 h2 : InternHandle) (r1 r2 : CrcState σ × σ)
    (hd : s01.digest = s02.digest)
    (hvals : inputs1.map Prod.fst = inputs2.map Prod.fst)
    (hok1 : interner (configureRun s01 inputs1 f d1) e1 g1 = (.ok h1, r1))
    (hok2 : interner (configureRun s02 inputs2 f d2) e2 g2 = (.ok h2, r2)) :
    h1.register_hi = h2.register_hi ∧ h1.register_lo = h2.register_lo := by
  have hh1 := interner_ok_handle _ _ _ _ _ hok1
  have hh2 := interner_ok_handle _ _ _ _ _ hok2
  subst hh1
  subst hh2
  have hdig : (configureRun s01 inputs1 f d1).digest =
      (configureRun s02 inputs2 f d2).digest :=
    foldl_pushTag_digest_eq inputs1 inputs2 s01 s02 hd hvals
  have hfl : (configureRun s01 inputs1 f d1).flags =
      (configureRun s02 inputs2 f d2).flags := rfl
  constructor <;> simp only [mkHandle, hdig, hfl]

/-- Witness for C7: two runs pushing the byte stream `[3]` with different
callbacks, payloads, entropy values and table states. -/
theorem c7_witness :
    (mkHandle (configureRun (freshState Nat)
        [([3], fun _ g => Except.ok g)] 0x0200 1) 10).register_hi =
      (mkHandle (configureRun (freshState Nat)
        [([3], fun _ g => Except.ok (g + 5))] 0x0200 2) 20).register_hi ∧
    (mkHandle (configureRun (freshState Nat)
        [([3], fun _ g => Except.ok g)] 0x0200 1) 10).register_lo =
      (mkHandle (configureRun (freshState Nat)
        [([3], fun _ g => Except.ok (g + 5))] 0x0200 2) 20).register_lo := by
  exact c7_determinism (freshState Nat) (freshState Nat)
    [([3], fun _ g => Except.ok g)] [([3], fun _ g => Except.ok (g + 5))]
    0x0200 1 2 10 20 0 0 _ _ _ _ rfl rfl rfl rfl

/-- Claim C8 evaluated at a failing input: `interner()` does drain the
tag queue (empty afterwards), but it leaves the previously set level
flag (and data payload) in the interner state — the flag is sticky, and
the next handle built without a fresh `set_level_flags` call still
carries it — contradicting the documented contract that the flag is
cleared when `interner` is called. -/
theorem c8_flags_sticky :
    ((interner (setData (setLevelFlags
        (pushTag (freshState Nat) ([5], fun _ g => .ok (g + 1))) 0x0400) 7)
        0 0).2.1.tags = ([] : List (TagFn Nat))) ∧
    ((interner (setData (setLevelFlags
        (pushTag (freshState Nat) ([5], fun _ g => .ok (g + 1))) 0x0400) 7)
        0 0).2.1.flags = 0x0400) ∧
    ((interner (setData (setLevelFlags
        (pushTag (freshState Nat) ([5], fun _ g => .ok (g + 1))) 0x0400) 7)
        0 0).2.1.data = 7) ∧
    ((mkHandle ((interner (setData (setLevelFlags
        (pushTag (freshState Nat) ([5], fun _ g => .ok (g + 1))) 0x0400) 7)
        0 0).2.1) 0).levelFlagsBits = 0x0400) := by
  refine ⟨rfl, rfl, rfl, ?_⟩
  decide

/-- Claim C9: a successful `interner()` call stamps
`data = payload XOR entropy`, and `data()` read back with the same
entropy recovers exactly the payload. -/
theorem c9_payload_xor {σ : Type} (s : CrcState σ) (e : Nat) (g : σ)
    (h : InternHandle) (r : CrcState σ × σ)
    (hok : interner s e g = (.ok h, r)) :
    h.data = s.data ^^^ e ∧ h.dataFn e = s.data := by
  have hh := interner_ok_handle s e g h r hok
  subst hh
  constructor
  · show e ^^^ s.data = s.data ^^^ e
    exact Nat.xor_comm e s.data
  · show (e ^^^ s.data) ^^^ e = s.data
    rw [Nat.xor_comm e s.data, Nat.xor_assoc, Nat.xor_self, Nat.xor_zero]

/-- Witness for C9 at payload 42 and entropy 99. -/
theorem c9_witness :
    (mkHandle (setData (freshState Nat) 42) 99).data = 42 ^^^ 99 ∧
    InternHandle.dataFn (mkHandle (setData (freshState Nat) 42) 99) 99 = 42 := by
  exact c9_payload_xor (setData (freshState Nat) 42) 99 0 _ _ rfl

/-- `Repr::get_levels` (`src/repr/mod.rs`) with explicit fuel.  The Rust
`loop` pushes the current handle and follows `prev.node()` when the
recovered previous handle is found in the `HANDLES` table; when the
cursor has no previous handle it pushes, reverses and returns.  When the
recovered previous handle is *not* in the table the loop body does
nothing, so one fuel unit is consumed with an unchanged state; the Rust
loop diverges, i.e. the fuel version returns `none` for every fuel. -/
def getLevelsFuel (tbl : List (InternHandle × InternHandle)) (e : Nat) :
    Nat → List InternHandle × (Option InternHandle × InternHandle) →
    Option (List InternHandle)
  | 0, _ => none
  | fuel + 1, (levels, (some prev, current)) =>
      match lookupTbl tbl prev with
      | some prevH => getLevelsFuel tbl e fuel (levels ++ [current], prevH.node e)
      | none => getLevelsFuel tbl e fuel (levels, (some prev, current))
  | _ + 1, (levels, (none, current)) => some ((levels ++ [current]).reverse)

/-- `Repr::get_levels` started from the tail handle. -/
def getLevels (tbl : List (InternHandle × InternHandle)) (e : Nat)
    (fuel : Nat) (tail : InternHandle) : Option (List InternHandle) :=
  getLevelsFuel tbl e fuel ([], tail.node e)

/-- A cursor whose recovered previous handle misses the handle table is a
fixed point of the loop: no fuel suffices. -/
theorem getLevelsFuel_stuck (tbl : List (InternHandle × InternHandle)) (e : Nat)
    (levels : List InternHandle) (prev cur : InternHandle)
    (hmiss : lookupTbl tbl prev = none) :
    ∀ fuel, getLevelsFuel tbl e fuel (levels, (some prev, cur)) = none := by
  intro fuel
  induction fuel with
  | zero => rfl
  | succ m ih =>
      simp only [getLevelsFuel, hmiss]
      exact ih

/-- Claim C10: if the tail's `node()` recovers a previous handle (the
level-shift check passes) that has no entry in the `HANDLES` table, the
`get_levels` loop never terminates — the fuel semantics returns `none`
for every fuel amount. -/
theorem c10_get_levels_diverges (tbl : List (InternHandle × InternHandle))
    (e : Nat) (tail prev cur : InternHandle)
    (hnode : tail.node e = (some prev, cur))
    (hmiss : lookupTbl tbl prev = none) :
    ∀ fuel, getLevels tbl e fuel tail = none := by
  intro fuel
  unfold getLevels
  rw [hnode]
  exact getLevelsFuel_stuck tbl e [] prev cur hmiss fuel

/-- Witness for C10: the Repr built by `Repr::from(0x0300000002000000)`
has a nonzero link recovering register `0x01000000` (flag `ROOT`, which
shifted left is the tail's `LEVEL_1` flag), yet an empty `HANDLES` table
has no entry for it, so the walk never returns. -/
theorem c10_witness :
    getLevels [] 0 9 (internHandleFromU64 0x0300000002000000 0) = none := by
  have hnode : (internHandleFromU64 0x0300000002000000 0).node 0 =
      (some ⟨0, 0x0100, 0, 0⟩, ⟨0, 0x0200, 0, 0⟩) := by decide
  exact c10_get_levels_diverges [] 0 _ _ _ hnode rfl 9

/-- `Repr::downgrade` (`src/repr/mod.rs`) on the walked level list: with
`end = len - count` defined (`checked_sub`), keep the first `end` levels,
pop the last two; with two levels left re-derive the tail link from their
registers, with one return it unchanged, with zero (or when `count`
exceeds the chain length) fail. -/
def downgrade (levels : List InternHandle) (count : Nat) :
    Except String InternHandle :=
  if count ≤ levels.length then
    match (levels.take (levels.length - count)).reverse with
    | tail :: next :: _ => .ok { tail with link := tail.register ^^^ next.register }
    | [tail] => .ok tail
    | [] => .error "Could not downgrade"
  else .error "Could not downgrade"

/-- Counterexample to C5 as stated: for a one-level chain, `count = 1`
does not exceed the chain length, yet `downgrade` fails (no level would
remain). -/
theorem c5_counterexample : downgrade [h0] 1 = .error "Could not downgrade" := by
  rfl

/-- `getD` of an element below the `take` boundary reads the original list. -/
theorem getD_take {α : Type} :
    ∀ (l : List α) (n i : Nat) (d : α), i < n →
      (l.take n).getD i d = l.getD i d := by
  intro l
  induction l with
  | nil => intro n i d _; rw [List.take_nil]
  | cons a rest ih =>
      intro n i d h
      cases n with
      | zero => omega
      | succ m =>
          cases i with
          | zero => rfl
          | succ j =>
              show (rest.take m).getD j d = rest.getD j d
              exact ih m j d (by omega)

/-- `getD` at the length of the left part of an append reads the first
element of the right part. -/
theorem getD_append_len {α : Type} :
    ∀ (l : List α) (x : α) (rest : List α) (d : α),
      (l ++ x :: rest).getD l.length d = x := by
  intro l
  induction l with
  | nil => intro x rest d; rfl
  | cons a t ih =>
      intro x rest d
      show (t ++ x :: rest).getD t.length d = x
      exact ih x rest d

/-- A list of length at least two reverses to its last element, then its
second-to-last element, then a remainder. -/
theorem reverse_two_last {α : Type} (ls : List α) (d : α) (h2 : 2 ≤ ls.length) :
    ∃ t, ls.reverse =
      ls.getD (ls.length - 1) d :: ls.getD (ls.length - 2) d :: t := by
  induction ls using List.reverseRecOn with
  | nil => simp at h2
  | append_singleton l a _ =>
      induction l using List.reverseRecOn with
      | nil => simp at h2
      | append_singleton l' b _ =>
          refine ⟨l'.reverse, ?_⟩
          have gA : ((l' ++ [b]) ++ [a]).getD ((l' ++ [b]).length) d = a :=
            getD_append_len (l' ++ [b]) a [] d
          have gB : ((l' ++ [b]) ++ [a]).getD (l'.length) d = b := by
            rw [List.append_assoc]
            exact getD_append_len l' b [a] d
          have hL : ((l' ++ [b]) ++ [a]).length = l'.length + 2 := by simp
          rw [hL]
          rw [show l'.length + 2 - 1 = (l' ++ [b]).length by simp]
          rw [show l'.length + 2 - 2 = l'.length from by omega]
          rw [gA, gB]
          simp [List.reverse_append]

/-- Claim C5 (amended): `downgrade(count)` fails whenever no level would
remain (`count ≥ n`, not only `count > n`); when at least one level
remains it drops the last `count` levels and either returns the single
remaining root handle or the last remaining handle with its link
re-derived by XOR-ing the registers of the last two remaining levels. -/
theorem c5_downgrade (levels : List InternHandle) (count : Nat) :
    (levels.length ≤ count → downgrade levels count = .error "Could not downgrade") ∧
    (count < levels.length → levels.length - count = 1 →
      downgrade levels count = .ok (levels.getD 0 h0)) ∧
    (count < levels.length → 2 ≤ levels.length - count →
      downgrade levels count =
        .ok { levels.getD (levels.length - count - 1) h0 with
              link := (levels.getD (levels.length - count - 1) h0).register ^^^
                      (levels.getD (levels.length - count - 2) h0).register }) := by
  refine ⟨?_, ?_, ?_⟩
  · intro hlen
    by_cases hc : count ≤ levels.length
    · unfold downgrade
      rw [if_pos hc, Nat.sub_eq_zero_of_le hlen]
      rfl
    · unfold downgrade
      rw [if_neg hc]
  · intro hlt hone
    cases levels with
    | nil => simp at hlt
    | cons a rest =>
        unfold downgrade
        rw [if_pos (le_of_lt hlt), hone]
        rfl
  · intro hlt h2
    have h2' : 2 ≤ (levels.take (levels.length - count)).length := by
      rw [List.length_take]
      omega
    obtain ⟨t, ht⟩ := reverse_two_last (levels.take (levels.length - count)) h0 h2'
    have hlen : (levels.take (levels.length - count)).length =
        levels.length - count := by
      rw [List.length_take]
      omega
    have hA : (levels.take (levels.length - count)).getD
        ((levels.take (levels.length - count)).length - 1) h0 =
        levels.getD (levels.length - count - 1) h0 := by
      rw [hlen]
      exact getD_take levels _ _ h0 (by omega)
    have hB : (levels.take (levels.length - count)).getD
        ((levels.take (levels.length - count)).length - 2) h0 =
        levels.getD (levels.length - count - 2) h0 := by
      rw [hlen]
      exact getD_take levels _ _ h0 (by omega)
    rw [hA, hB] at ht
    unfold downgrade
    rw [if_pos (le_of_lt hlt), ht]

/-- Witness for C5 (amended) on a three-level chain with `count = 1`. -/
theorem c5_witness :
    downgrade [⟨0, 0x0100, 1, 0⟩, ⟨7, 0x0200, 2, 0⟩, ⟨9, 0x0400, 3, 0⟩] 1 =
      .ok { ([⟨0, 0x0100, 1, 0⟩, ⟨7, 0x0200, 2, 0⟩, ⟨9, 0x0400, 3, 0⟩] :
              List InternHandle).getD 1 h0 with
            link := (([⟨0, 0x0100, 1, 0⟩, ⟨7, 0x0200, 2, 0⟩, ⟨9, 0x0400, 3, 0⟩] :
              List InternHandle).getD 1 h0).register ^^^
              (([⟨0, 0x0100, 1, 0⟩, ⟨7, 0x0200, 2, 0⟩, ⟨9, 0x0400, 3, 0⟩] :
              List InternHandle).getD 0 h0).register } := by
  exact (c5_downgrade [⟨0, 0x0100, 1, 0⟩, ⟨7, 0x0200, 2, 0⟩, ⟨9, 0x0400, 3, 0⟩]
    1).2.2 (by decide) (by decide)

/-- `InternHandle::entity` (`src/interner.rs`): un-XOR the data register,
look the handle up in the `ENTITY` intern table and return the data value
only when the stored counter matches it. -/
def entityFn (h : InternHandle) (tbl : List (InternHandle × Nat))
    (entropy : Nat) : Option Nat :=
  match lookupTbl tbl h with
  | some v => if v = h.dataFn entropy then some (h.dataFn entropy) else none
  | none => none

/-- One `EntityInterner::interner` call (`src/entity.rs`): bump the `u64`
counter (wrapping), hand it to the inner interner as the data payload
(`inner` abstracts `set_data` followed by a successful `inner.interner()`),
and record the counter in the `ENTITY` table keyed by the produced
handle. -/
def entityStep (inner : Nat → InternHandle)
    (st : Nat × List (InternHandle × Nat)) :
    InternHandle × (Nat × List (InternHandle × Nat)) :=
  ((inner ((st.1 + 1) % U64)),
   ((st.1 + 1) % U64,
    assign_intern st.2 (inner ((st.1 + 1) % U64)) ((st.1 + 1) % U64)))

/-- `n` sequential `EntityInterner::interner` calls, collecting the
produced handles. -/
def entityRun (inner : Nat → InternHandle) :
    Nat → Nat × List (InternHandle × Nat) →
    List InternHandle × (Nat × List (InternHandle × Nat))
  | 0, st => ([], st)
  | n + 1, st =>
      ((entityStep inner st).1 ::
        (entityRun inner n (entityStep inner st).2).1,
       (entityRun inner n (entityStep inner st).2).2)

/-- XOR by a fixed value is injective. -/
theorem xor_cancel_left (e a b : Nat) (h : e ^^^ a = e ^^^ b) : a = b := by
  have h2 := congrArg (fun x => e ^^^ x) h
  simpa [← Nat.xor_assoc, Nat.xor_self, Nat.zero_xor] using h2

/-- An inner interner that stamps `data = entropy XOR payload` produces
distinct handles for distinct payloads. -/
theorem inner_inj (inner : Nat → InternHandle) (entropy : Nat)
    (hdata : ∀ d, (inner d).data = entropy ^^^ d)
    (d1 d2 : Nat) (heq : inner d1 = inner d2) : d1 = d2 := by
  apply xor_cancel_left entropy
  rw [← hdata d1, ← hdata d2, heq]

/-- `assign_intern` never removes or changes an existing entry. -/
theorem lookup_assign_persist {T : Type} (tbl : List (InternHandle × T))
    (hh h : InternHandle) (k v : T) (hv : lookupTbl tbl h = some v) :
    lookupTbl (assign_intern tbl hh k) h = some v := by
  unfold assign_intern
  by_cases hcase : (lookupTbl tbl hh).isSome = true
  · rw [if_pos hcase]
    exact hv
  · rw [if_neg hcase]
    unfold lookupTbl
    by_cases heq : hh = h
    · subst heq
      rw [hv] at hcase
      exact absurd rfl hcase
    · rw [if_neg heq]
      exact hv

/-- Entries present before an `entityRun` are still present afterwards. -/
theorem entityRun_persist (inner : Nat → InternHandle) :
    ∀ (n c : Nat) (tbl : List (InternHandle × Nat)) (h : InternHandle) (v : Nat),
      lookupTbl tbl h = some v →
      lookupTbl (entityRun inner n (c, tbl)).2.2 h = some v := by
  intro n
  induction n with
  | zero => intro c tbl h v hv; exact hv
  | succ m ih =>
      intro c tbl h v hv
      show lookupTbl (entityRun inner m (entityStep inner (c, tbl)).2).2.2 h = some v
      exact ih ((c + 1) % U64) _ h v (lookup_assign_persist tbl _ h _ v hv)

/-- Behaviour of `n` sequential entity-interner calls from counter `c`:
the counter advances to `c + n`, the produced handles are
`inner (c+1) .. inner (c+n)` in order, each of those counters is
recorded in the `ENTITY` table keyed by its handle, and every table
entry either predates the run or holds a counter in `(c, c + n]`. -/
theorem entityRun_spec (inner : Nat → InternHandle) (entropy : Nat)
    (hdata : ∀ d, (inner d).data = entropy ^^^ d) :
    ∀ (n c : Nat) (tbl : List (InternHandle × Nat)),
      c + n < U64 →
      (∀ k, c < k → k ≤ c + n → lookupTbl tbl (inner k) = none) →
      (entityRun inner n (c, tbl)).2.1 = c + n ∧
      (entityRun inner n (c, tbl)).1 =
        (List.range n).map (fun i => inner (c + i + 1)) ∧
      (∀ k, c < k → k ≤ c + n →
        lookupTbl (entityRun inner n (c, tbl)).2.2 (inner k) = some k) ∧
      (∀ h v, lookupTbl (entityRun inner n (c, tbl)).2.2 h = some v →
        lookupTbl tbl h = some v ∨ (c < v ∧ v ≤ c + n)) := by
  intro n
  induction n with
  | zero =>
      intro c tbl _ _
      refine ⟨rfl, rfl, ?_, ?_⟩
      · intro k hk1 hk2
        omega
      · intro h v hv
        exact Or.inl hv
  | succ m ih =>
      intro c tbl hb hf
      have hc1 : (c + 1) % U64 = c + 1 := Nat.mod_eq_of_lt (by omega)
      have hfr : lookupTbl tbl (inner (c + 1)) = none :=
        hf (c + 1) (by omega) (by omega)
      have hstep : entityStep inner (c, tbl) =
          (inner (c + 1), (c + 1, (inner (c + 1), c + 1) :: tbl)) := by
        simp [entityStep, assign_intern, hc1, hfr]
      have hrun1 : (entityRun inner (m + 1) (c, tbl)).1 =
          inner (c + 1) ::
            (entityRun inner m (c + 1, (inner (c + 1), c + 1) :: tbl)).1 := by
        show (entityStep inner (c, tbl)).1 ::
            (entityRun inner m (entityStep inner (c, tbl)).2).1 = _
        rw [hstep]
      have hrun2 : (entityRun inner (m + 1) (c, tbl)).2 =
          (entityRun inner m (c + 1, (inner (c + 1), c + 1) :: tbl)).2 := by
        show (entityRun inner m (entityStep inner (c, tbl)).2).2 = _
        rw [hstep]
      have hf' : ∀ k, c + 1 < k → k ≤ (c + 1) + m →
          lookupTbl ((inner (c + 1), c + 1) :: tbl) (inner k) = none := by
        intro k hk1 hk2
        have hne : inner (c + 1) ≠ inner k := fun he =>
          absurd (inner_inj inner entropy hdata _ _ he) (by omega)
        show (if inner (c + 1) = inner k then some (c + 1)
          else lookupTbl tbl (inner k)) = none
        rw [if_neg hne]
        exact hf k (by omega) (by omega)
      obtain ⟨ih1, ih2, ih3, ih4⟩ :=
        ih (c + 1) ((inner (c + 1), c + 1) :: tbl) (by omega) hf'
      refine ⟨?_, ?_, ?_, ?_⟩
      · rw [hrun2, ih1]
        omega
      · rw [hrun1, ih2, List.range_succ_eq_map, List.map_cons, List.map_map]
        refine congrArg₂ _ rfl ?_
        apply List.map_congr_left
        intro i _
        show inner ((c + 1) + i + 1) = inner (c + (i + 1) + 1)
        congr 1
        omega
      · intro k hk1 hk2
        rw [hrun2]
        by_cases hkc : k = c + 1
        · subst hkc
          apply entityRun_persist
          show (if inner (c + 1) = inner (c + 1) then some (c + 1)
            else lookupTbl tbl (inner (c + 1))) = some (c + 1)
          rw [if_pos rfl]
        · exact ih3 k (by omega) (by omega)
      · intro h v hv
        rw [hrun2] at hv
        rcases ih4 h v hv with hleft | hright
        · by_cases heq : inner (c + 1) = h
          · have : some (c + 1) = some v := by
              rw [← hleft]
              show some (c + 1) =
                if inner (c + 1) = h then some (c + 1) else lookupTbl tbl h
              rw [if_pos heq]
            have hv' : v = c + 1 := (Option.some.inj this).symm
            exact Or.inr ⟨by omega, by omega⟩
          · refine Or.inl ?_
            rw [← hleft]
            show lookupTbl tbl h =
              if inner (c + 1) = h then some (c + 1) else lookupTbl tbl h
            rw [if_neg heq]
        · exact Or.inr ⟨by omega, by omega⟩

/-- Counterexample to C6 as stated: the counter is a **per-instance**
field of `EntityInterner` (starting at 0 for every instance), not a
process-wide value.  Two instances used on the same thread, sharing the
`ENTITY` table, both assign id 1 to their first creation: the two
sequential entity-scoped handle creations on the thread get equal, not
distinct, ids; they even produce the same handle, so the second
creation's `ENTITY` insert is a no-op and the table gains no entry. -/
theorem c6_counterexample :
    (entityStep (fun d => mkHandle (setData (freshState Nat) d) 0) (0, [])).2.1
      = 1 ∧
    (entityStep (fun d => mkHandle (setData (freshState Nat) d) 0)
      (0, (entityStep (fun d => mkHandle (setData (freshState Nat) d) 0)
        (0, [])).2.2)).2.1 = 1 ∧
    (entityStep (fun d => mkHandle (setData (freshState Nat) d) 0)
      (0, (entityStep (fun d => mkHandle (setData (freshState Nat) d) 0)
        (0, [])).2.2)).1 =
      (entityStep (fun d => mkHandle (setData (freshState Nat) d) 0) (0, [])).1 ∧
    (entityStep (fun d => mkHandle (setData (freshState Nat) d) 0)
      (0, (entityStep (fun d => mkHandle (setData (freshState Nat) d) 0)
        (0, [])).2.2)).2.2 =
      (entityStep (fun d => mkHandle (setData (freshState Nat) d) 0)
        (0, [])).2.2 := by
  refine ⟨rfl, rfl, rfl, ?_⟩
  decide

/-- Claim C6 (amended): the entity counter is per-`EntityInterner`
instance — each instance's `u64` counter starts at 0 and value 0 is
never assigned.  Starting one instance's counter at 0 with an empty
`ENTITY` table, `N` sequential `interner()` calls on that same instance
produce the handles for the distinct non-zero successor ids `1 .. N` in
order, each id recorded in the `ENTITY` table keyed by its produced
handle, the produced handles are pairwise distinct, and `entity()` never
returns 0 as a valid entity id. -/
theorem c6_entity_uniqueness (N : Nat) (inner : Nat → InternHandle)
    (entropy : Nat) (hN : N < U64)
    (hdata : ∀ d, (inner d).data = entropy ^^^ d) :
    (entityRun inner N (0, [])).2.1 = N ∧
    (entityRun inner N (0, [])).1 =
      (List.range N).map (fun i => inner (i + 1)) ∧
    (∀ i, i < N →
      lookupTbl (entityRun inner N (0, [])).2.2 (inner (i + 1)) = some (i + 1)) ∧
    (∀ i j, i < N → j < N → inner (i + 1) = inner (j + 1) → i = j) ∧
    (∀ h, entityFn h (entityRun inner N (0, [])).2.2 entropy ≠ some 0) := by
  obtain ⟨s1, s2, s3, s4⟩ :=
    entityRun_spec inner entropy hdata N 0 [] (by omega) (fun _ _ _ => rfl)
  refine ⟨by rw [s1]; omega, ?_, ?_, ?_, ?_⟩
  · rw [s2]
    apply List.map_congr_left
    intro i _
    show inner (0 + i + 1) = inner (i + 1)
    congr 1
    omega
  · intro i hi
    exact s3 (i + 1) (by omega) (by omega)
  · intro i j _ _ he
    have := inner_inj inner entropy hdata _ _ he
    omega
  · intro h hcon
    cases hl : lookupTbl (entityRun inner N (0, [])).2.2 h with
    | none => simp [entityFn, hl] at hcon
    | some v =>
        simp only [entityFn, hl] at hcon
        by_cases hveq : v = h.dataFn entropy
        · rw [if_pos hveq] at hcon
          have hd0 : h.dataFn entropy = 0 := Option.some.inj hcon
          rcases s4 h v hl with habs | hpos
          · exact Option.noConfusion habs
          · omega
        · rw [if_neg hveq] at hcon
          exact Option.noConfusion hcon

/-- Witness for C6 with the CRC interner as the inner interner, entropy
5 and two sequential creations. -/
theorem c6_witness :
    (entityRun (fun d => mkHandle (setData (freshState Nat) d) 5) 2 (0, [])).2.1
      = 2 ∧
    lookupTbl
      (entityRun (fun d => mkHandle (setData (freshState Nat) d) 5) 2 (0, [])).2.2
      (mkHandle (setData (freshState Nat) 1) 5) = some 1 := by
  have h := c6_entity_uniqueness 2
    (fun d => mkHandle (setData (freshState Nat) d) 5) 5 (by decide)
    (fun _ => rfl)
  exact ⟨h.1, h.2.2.1 0 (by decide)⟩

end Runir
